import Mathlib

/-!
Shallow embedding of `server.ts` of the ai-detective repository: the
room-relay WebSocket broker, the in-process room registry
(`Map<string, Set<WebSocket>>`), and the snapshot HTTP routes
(`POST /api/rooms`, `GET /api/rooms/:code`, `PUT /api/rooms/:code`)
with their MongoDB / in-memory-fallback stores.

The repository ships two variants of `server.ts`; their WebSocket code is
identical, and the store routes are embedded from the variant that carries
the `localRooms` in-memory fallback (the other variant is the
`connected = true` path of the same definitions, without a fallback).
-/

/-- JSON values, modelling the JavaScript values produced by `JSON.parse`.
Numbers are restricted to integers (the repository's payloads never rely on
fractional formatting). -/
inductive JsonVal where
  | null
  | bool (b : Bool)
  | num (n : Int)
  | str (s : String)
  | arr (elems : List JsonVal)
  | obj (fields : List (String × JsonVal))

/-- The `{` character, kept out of literals for tooling reasons. -/
def lbraceChar : Char := Char.ofNat 123

/-- The `}` character. -/
def rbraceChar : Char := Char.ofNat 125

/-- JSON insignificant whitespace, as accepted by `JSON.parse`. -/
def isJsonWs (c : Char) : Bool :=
  c = ' ' || c = '\n' || c = '\t' || c = '\r'

/-- Skip insignificant whitespace. -/
def skipWs : List Char → List Char
  | [] => []
  | c :: rest => if isJsonWs c then skipWs rest else c :: rest

/-- Decimal digit test. -/
def isDigitChar (c : Char) : Bool := '0' ≤ c && c ≤ '9'

/-- Consume a run of decimal digits, returning the accumulated natural
number; fails when no digit is present. -/
def parseDigits (acc : Nat) (seen : Bool) : List Char → Option (Nat × List Char)
  | [] => if seen then some (acc, []) else none
  | c :: rest =>
    if isDigitChar c then parseDigits (acc * 10 + (c.toNat - '0'.toNat)) true rest
    else if seen then some (acc, c :: rest) else none

/-- Body of a JSON string literal after the opening quote: plain characters
and the escapes `\"`, `\\`, `\n`, `\t` (the subset the model serialises). -/
def parseStringBody : List Char → Option (List Char × List Char)
  | [] => none
  | c :: rest =>
    if c = '"' then some ([], rest)
    else if c = '\\' then
      match rest with
      | [] => none
      | e :: rest2 =>
        let dec : Option Char :=
          if e = '"' then some '"'
          else if e = '\\' then some '\\'
          else if e = 'n' then some '\n'
          else if e = 't' then some '\t'
          else none
        match dec with
        | none => none
        | some d =>
          match parseStringBody rest2 with
          | none => none
          | some (s, r) => some (d :: s, r)
    else
      match parseStringBody rest with
      | none => none
      | some (s, r) => some (c :: s, r)

mutual

/-- Recursive-descent JSON value, fuelled; models `JSON.parse`. -/
def parseVal : Nat → List Char → Option (JsonVal × List Char)
  | 0, _ => none
  | fuel + 1, input =>
    match skipWs input with
    | [] => none
    | 'n' :: 'u' :: 'l' :: 'l' :: rest => some (.null, rest)
    | 't' :: 'r' :: 'u' :: 'e' :: rest => some (.bool true, rest)
    | 'f' :: 'a' :: 'l' :: 's' :: 'e' :: rest => some (.bool false, rest)
    | '"' :: rest =>
      match parseStringBody rest with
      | none => none
      | some (s, r) => some (.str (String.mk s), r)
    | '[' :: rest =>
      (match skipWs rest with
      | ']' :: r => some (.arr [], r)
      | other =>
        match parseArrItems fuel other with
        | none => none
        | some (xs, r) => some (.arr xs, r))
    | '-' :: rest =>
      (match parseDigits 0 false rest with
      | none => none
      | some (n, r) => some (.num (-(n : Int)), r))
    | c :: rest =>
      if c = lbraceChar then
        match skipWs rest with
        | d :: r =>
          if d = rbraceChar then some (.obj [], r)
          else
            (match parseObjFields fuel (d :: r) with
            | none => none
            | some (fs, r2) => some (.obj fs, r2))
        | [] => none
      else if isDigitChar c then
        match parseDigits 0 false (c :: rest) with
        | none => none
        | some (n, r) => some (.num (n : Int), r)
      else none

/-- One-or-more comma-separated array items, then `]`. -/
def parseArrItems : Nat → List Char → Option (List JsonVal × List Char)
  | 0, _ => none
  | fuel + 1, input =>
    match parseVal fuel input with
    | none => none
    | some (v, r) =>
      match skipWs r with
      | ',' :: r2 =>
        (match parseArrItems fuel r2 with
        | none => none
        | some (vs, r3) => some (v :: vs, r3))
      | ']' :: r2 => some ([v], r2)
      | _ => none

/-- One-or-more comma-separated `"key": value` fields, then `}`. -/
def parseObjFields : Nat → List Char → Option (List (String × JsonVal) × List Char)
  | 0, _ => none
  | fuel + 1, input =>
    match skipWs input with
    | '"' :: rest =>
      (match parseStringBody rest with
      | none => none
      | some (k, r) =>
        match skipWs r with
        | ':' :: r2 =>
          (match parseVal fuel r2 with
          | none => none
          | some (v, r3) =>
            match skipWs r3 with
            | ',' :: r4 =>
              (match parseObjFields fuel r4 with
              | none => none
              | some (fs, r5) => some ((String.mk k, v) :: fs, r5))
            | d :: r4 =>
              if d = rbraceChar then some ([(String.mk k, v)], r4) else none
            | [] => none)
        | _ => none)
    | _ => none

end

/-- `JSON.parse` on a whole message: a single value surrounded by optional
whitespace; anything else throws (modelled as `none`). -/
def jsonParse (s : String) : Option JsonVal :=
  match parseVal (s.length + 1) s.data with
  | none => none
  | some (v, rest) => if skipWs rest = [] then some v else none

/-- Escape a string character for serialisation, matching
`JSON.stringify`'s treatment of the modelled escape subset. -/
def escChar (c : Char) : List Char :=
  if c = '"' then ['\\', '"']
  else if c = '\\' then ['\\', '\\']
  else if c = '\n' then ['\\', 'n']
  else if c = '\t' then ['\\', 't']
  else [c]

mutual

/-- `JSON.stringify` (no spacing argument): canonical compact output. -/
def stringifyVal : JsonVal → List Char
  | .null => "null".data
  | .bool b => if b then "true".data else "false".data
  | .num n => (toString n).data
  | .str s => '"' :: (s.data.flatMap escChar ++ ['"'])
  | .arr xs => '[' :: (stringifyArr xs ++ [']'])
  | .obj fs => lbraceChar :: (stringifyObj fs ++ [rbraceChar])

/-- Comma-separated serialised array elements. -/
def stringifyArr : List JsonVal → List Char
  | [] => []
  | [x] => stringifyVal x
  | x :: y :: rest => stringifyVal x ++ ',' :: stringifyArr (y :: rest)

/-- Comma-separated serialised object fields. -/
def stringifyObj : List (String × JsonVal) → List Char
  | [] => []
  | [(k, v)] => '"' :: (k.data.flatMap escChar ++ ['"', ':'] ++ stringifyVal v)
  | (k, v) :: f :: rest =>
    '"' :: (k.data.flatMap escChar ++ ['"', ':'] ++ stringifyVal v) ++
      ',' :: stringifyObj (f :: rest)

end

/-- `JSON.stringify` producing a `String`. -/
def jsonStringify (v : JsonVal) : String := String.mk (stringifyVal v)

/-! ## JavaScript `Map` / `Set`, as association lists

`mapSet` replaces an existing key in place (JS `Map` keeps insertion order
and holds each key once); `setAdd` is a no-op on an existing member. -/

/-- Association list modelling a JS `Map<string, α>` in insertion order. -/
abbrev JsMap (α : Type) := List (String × α)

/-- `map.get(k)`: the entry for `k`, or `undefined`. -/
def mapGet {α : Type} : JsMap α → String → Option α
  | [], _ => none
  | (k', v) :: rest, k => if k' = k then some v else mapGet rest k

/-- `map.has(k)`. -/
def mapHas {α : Type} (m : JsMap α) (k : String) : Bool := (mapGet m k).isSome

/-- `map.set(k, v)`: replace in place, or append as the newest entry. -/
def mapSet {α : Type} : JsMap α → String → α → JsMap α
  | [], k, v => [(k, v)]
  | (k', v') :: rest, k, v =>
    if k' = k then (k, v) :: rest else (k', v') :: mapSet rest k v

/-- `map.delete(k)`. -/
def mapDelete {α : Type} : JsMap α → String → JsMap α
  | [], _ => []
  | (k', v') :: rest, k => if k' = k then rest else (k', v') :: mapDelete rest k

/-- WebSocket connections, identified abstractly. -/
abbrev Conn := Nat

/-- `set.add(ws)`: no-op when already a member, else append (JS `Set`
iterates in insertion order). -/
def setAdd (s : List Conn) (ws : Conn) : List Conn :=
  if ws ∈ s then s else s ++ [ws]

/-- `set.delete(ws)`. -/
def setDelete (s : List Conn) (ws : Conn) : List Conn := s.filter (· ≠ ws)

/-! ## Relay Broker (`wss.on("connection")` and its handlers)

The broker state is `const clients = new Map<string, Set<WebSocket>>()`. -/

/-- The Room Registry: `clients` in `server.ts`. -/
abbrev Registry := JsMap (List Conn)

/-- `wss.on("connection")`: `code = url.searchParams.get("code")` is `null`
when the query parameter is absent, and JS `!code` is `true` exactly for
`null` and the empty string. Returns the new registry and whether the
connection was accepted (`false` models `ws.close(); return` before any
registration). -/
def handleConnection (st : Registry) (ws : Conn) (code : Option String) :
    Registry × Bool :=
  match code with
  | none => (st, false)
  | some c =>
    if c = "" then (st, false)
    else
      let st1 := if mapHas st c then st else mapSet st c []
      (mapSet st1 c (setAdd ((mapGet st1 c).getD []) ws), true)

/-- `ws.on("message")`: `JSON.parse(message.toString())` throws on
malformed input, and the handler has no `try`/`catch`, so the exception
escapes (`Except.error ()`). On success the handler sends
`JSON.stringify(data)` to every client of the sender's room other than the
sender whose `readyState` is `OPEN`; `isOpen` models `readyState === OPEN`.
The result lists the `(recipient, sentText)` pairs in iteration order. -/
def handleMessage (st : Registry) (ws : Conn) (code : String)
    (isOpen : Conn → Bool) (message : String) :
    Except Unit (List (Conn × String)) :=
  match jsonParse message with
  | none => .error ()
  | some data =>
    match mapGet st code with
    | none => .ok []
    | some roomClients =>
      .ok (roomClients.filterMap fun client =>
        if client ≠ ws ∧ isOpen client then some (client, jsonStringify data)
        else none)

/-- `ws.on("close")`: drop the connection from its room's set and delete
the room's registry entry when the set becomes empty. -/
def handleClose (st : Registry) (ws : Conn) (code : String) : Registry :=
  match mapGet st code with
  | none => st
  | some roomClients =>
    let rc := setDelete roomClients ws
    if rc = [] then mapDelete st code else mapSet st code rc

/-! ## Snapshot Store and the HTTP routes

The MongoDB collection is modelled as a `JsMap RoomDoc` whose `save`
rejects a duplicate `code` (the schema declares `code` with
`unique: true`); `findOneAndUpdate` updates the matching document when one
exists and is a silent no-op otherwise. The `localRooms` fallback is the
module-level `Map` of the fallback variant. -/

/-- A stored Room document (`data` is opaque to the store). -/
structure RoomDoc where
  code : String
  mode : String
  data : JsonVal

/-- `new Room({code, mode, data}).save()`: fails on a duplicate `code`
because of the schema's unique index; otherwise inserts. -/
def mongoSave (db : JsMap RoomDoc) (doc : RoomDoc) :
    Except String (JsMap RoomDoc) :=
  if mapHas db doc.code then .error "E11000 duplicate key"
  else .ok (db ++ [(doc.code, doc)])

/-- `Room.findOne({code})`. -/
def mongoFindOne (db : JsMap RoomDoc) (code : String) : Option RoomDoc :=
  mapGet db code

/-- `Room.findOneAndUpdate({code}, {data})`: replaces `data` of the
matching document; resolves (to `null`) without error when none matches. -/
def mongoFindOneAndUpdate (db : JsMap RoomDoc) (code : String)
    (newData : JsonVal) : JsMap RoomDoc :=
  match mapGet db code with
  | none => db
  | some doc => mapSet db code { doc with data := newData }

/-- The two stores the routes touch: the MongoDB collection and the
in-memory `localRooms` fallback map. -/
structure ServerStores where
  mongo : JsMap RoomDoc
  localRooms : JsMap RoomDoc

/-- State of the stores at process start: `localRooms = new Map()` and an
(abstract) MongoDB collection. A brand-new deployment has both empty. -/
def initialStores : ServerStores := ⟨[], []⟩

/-- An HTTP response of the snapshot routes. -/
inductive ApiResult where
  | success
  | roomJson (doc : RoomDoc)
  | notFound
  | serverError (msg : String)

/-- `POST /api/rooms` of the fallback variant: when
`mongoose.connection.readyState === 1` (`connected`), save to MongoDB and
answer 500 on failure; otherwise `localRooms.set(code, {code, mode, data})`
unconditionally. Both success paths answer `{success: true}`. -/
def postRooms (connected : Bool) (st : ServerStores) (code mode : String)
    (data : JsonVal) : ServerStores × ApiResult :=
  if connected then
    match mongoSave st.mongo ⟨code, mode, data⟩ with
    | .ok db => ({ st with mongo := db }, .success)
    | .error _ => (st, .serverError "Failed to create room")
  else
    ({ st with localRooms := mapSet st.localRooms code ⟨code, mode, data⟩ },
      .success)

/-- `GET /api/rooms/:code`: the found document, else 404
`{error: "Room not found"}`. -/
def getRooms (connected : Bool) (st : ServerStores) (code : String) :
    ApiResult :=
  let room := if connected then mongoFindOne st.mongo code
              else mapGet st.localRooms code
  match room with
  | some doc => .roomJson doc
  | none => .notFound

/-- `PUT /api/rooms/:code`: in connected mode `findOneAndUpdate` then
`{success: true}` unconditionally; in fallback mode mutate the stored room
if present — and still answer `{success: true}` either way. -/
def putRooms (connected : Bool) (st : ServerStores) (code : String)
    (data : JsonVal) : ServerStores × ApiResult :=
  if connected then
    ({ st with mongo := mongoFindOneAndUpdate st.mongo code data }, .success)
  else
    match mapGet st.localRooms code with
    | some room =>
      ({ st with localRooms := mapSet st.localRooms code { room with data := data } },
        .success)
    | none => (st, .success)

/-! ## Startup (`startServer`'s MongoDB connection step) -/

/-- Log lines the startup step can emit. -/
inductive StartupLog where
  | connectedCloud
  | connectError
  | noUriFallback
deriving DecidableEq

/-- The MongoDB connection step of `startServer`: with a URI, try to
connect, catching (and logging) a failure; without one, log the fallback
warning. Returns whether the store is connected plus the log — the
`catch`/`else` branches mean the process never dies here. -/
def startupConnect (mongoUri : Option String) (connectSucceeds : Bool) :
    Bool × List StartupLog :=
  match mongoUri with
  | some _ =>
    if connectSucceeds then (true, [.connectedCloud])
    else (false, [.connectError])
  | none => (false, [.noUriFallback])

/-! ## Registry predicates -/

/-- The Room Registry never maps a room code to an empty connection set. -/
def RegWF (st : Registry) : Prop := ∀ e ∈ st, e.2 ≠ []

/-- The registry holds each room code at most once (a JS `Map` key is
unique); every registry reachable from `new Map()` satisfies this. -/
def NodupKeys (st : Registry) : Prop :=
  st.Pairwise fun a b => a.1 ≠ b.1

/-- Distinct rooms hold disjoint connection sets (each live socket fires
one `connection` event, so it is registered under exactly one code). -/
def Separated (st : Registry) : Prop :=
  ∀ e1 ∈ st, ∀ e2 ∈ st, e1.1 ≠ e2.1 → ∀ w ∈ e1.2, w ∉ e2.2

example : jsonParse "null" = some .null := rfl
example : jsonParse " true" = some (.bool true) := rfl
example : jsonParse "[1, -2]" = some (.arr [.num 1, .num (-2)]) := rfl
example : jsonParse "tru" = none := rfl
example : jsonStringify (.arr [.num 1, .num (-2)]) = "[1,-2]" := rfl

/-! ## Association-list lemmas -/

theorem mapGet_mapSet_self {α : Type} (m : JsMap α) (k : String) (v : α) :
    mapGet (mapSet m k v) k = some v := by
  induction m with
  | nil => simp [mapSet, mapGet]
  | cons e rest ih =>
    obtain ⟨k', v'⟩ := e
    by_cases h : k' = k
    · simp [mapSet, mapGet, h]
    · simp [mapSet, mapGet, h, ih]

theorem mapGet_mapSet_other {α : Type} (m : JsMap α) (k k2 : String) (v : α)
    (h : k2 ≠ k) : mapGet (mapSet m k v) k2 = mapGet m k2 := by
  have h' : ¬k = k2 := fun e => h e.symm
  induction m with
  | nil => simp [mapSet, mapGet, h']
  | cons e rest ih =>
    obtain ⟨k', v'⟩ := e
    by_cases hk : k' = k
    · subst hk
      simp [mapSet, mapGet, h']
    · simp [mapSet, mapGet, hk, ih]

theorem mem_mapSet {α : Type} (m : JsMap α) (k : String) (v : α)
    (e : String × α) (h : e ∈ mapSet m k v) : e ∈ m ∨ e = (k, v) := by
  induction m with
  | nil => simpa [mapSet] using h
  | cons f rest ih =>
    obtain ⟨k', v'⟩ := f
    by_cases hk : k' = k
    · simp only [mapSet, if_pos hk, List.mem_cons] at h
      rcases h with h | h
      · exact Or.inr h
      · exact Or.inl (List.mem_cons_of_mem _ h)
    · simp only [mapSet, if_neg hk, List.mem_cons] at h
      rcases h with h | h
      · exact Or.inl (h ▸ List.mem_cons_self _ _)
      · rcases ih h with h' | h'
        · exact Or.inl (List.mem_cons_of_mem _ h')
        · exact Or.inr h'

theorem mapDelete_sublist {α : Type} (m : JsMap α) (k : String) :
    List.Sublist (mapDelete m k) m := by
  induction m with
  | nil => simp [mapDelete]
  | cons f rest ih =>
    obtain ⟨k', v'⟩ := f
    by_cases hk : k' = k
    · simp only [mapDelete, if_pos hk]
      exact List.sublist_cons_self (k', v') rest
    · simpa [mapDelete, hk] using ih.cons₂ (k', v')

theorem mem_mapDelete {α : Type} (m : JsMap α) (k : String) (e : String × α)
    (h : e ∈ mapDelete m k) : e ∈ m :=
  (mapDelete_sublist m k).mem h

theorem mapGet_eq_none_iff {α : Type} (m : JsMap α) (k : String) :
    mapGet m k = none ↔ ∀ e ∈ m, e.1 ≠ k := by
  induction m with
  | nil => simp [mapGet]
  | cons f rest ih =>
    obtain ⟨k', v'⟩ := f
    by_cases hk : k' = k
    · simp [mapGet, hk]
    · simp [mapGet, hk, ih]

theorem mapGet_mem {α : Type} (m : JsMap α) (k : String) (v : α)
    (h : mapGet m k = some v) : (k, v) ∈ m := by
  induction m with
  | nil => simp [mapGet] at h
  | cons f rest ih =>
    obtain ⟨k', v'⟩ := f
    by_cases hk : k' = k
    · subst hk
      simp [mapGet] at h
      obtain rfl := h
      exact List.mem_cons_self _ _
    · simp only [mapGet, if_neg hk] at h
      exact List.mem_cons_of_mem _ (ih h)

theorem mapGet_mapDelete_self {α : Type} (m : JsMap α) (k : String)
    (hnd : m.Pairwise fun a b => a.1 ≠ b.1) :
    mapGet (mapDelete m k) k = none := by
  induction m with
  | nil => simp [mapDelete, mapGet]
  | cons f rest ih =>
    obtain ⟨k', v'⟩ := f
    rcases List.pairwise_cons.1 hnd with ⟨hhead, htail⟩
    by_cases hk : k' = k
    · subst hk
      simp only [mapDelete, if_pos rfl]
      exact (mapGet_eq_none_iff rest k').2 fun e he => (hhead e he).symm
    · simp only [mapDelete, if_neg hk, mapGet, if_neg hk]
      exact ih htail

theorem mapSet_of_get_none {α : Type} (m : JsMap α) (k : String) (v : α)
    (h : mapGet m k = none) : mapSet m k v = m ++ [(k, v)] := by
  induction m with
  | nil => simp [mapSet]
  | cons f rest ih =>
    obtain ⟨k', v'⟩ := f
    by_cases hk : k' = k
    · simp [mapGet, hk] at h
    · simp only [mapGet, if_neg hk] at h
      simp [mapSet, hk, ih h]

theorem mapSet_append_fresh {α : Type} (m : JsMap α) (k : String) (w v : α)
    (h : mapGet m k = none) : mapSet (m ++ [(k, w)]) k v = m ++ [(k, v)] := by
  induction m with
  | nil => simp [mapSet]
  | cons f rest ih =>
    obtain ⟨k', v'⟩ := f
    by_cases hk : k' = k
    · simp [mapGet, hk] at h
    · simp only [mapGet, if_neg hk] at h
      simp [mapSet, hk, ih h]

theorem nodupKeys_mapSet {α : Type} (m : JsMap α) (k : String) (v : α)
    (hnd : m.Pairwise fun a b => a.1 ≠ b.1) :
    (mapSet m k v).Pairwise fun a b => a.1 ≠ b.1 := by
  induction m with
  | nil => simp [mapSet]
  | cons f rest ih =>
    obtain ⟨k', v'⟩ := f
    rcases List.pairwise_cons.1 hnd with ⟨hhead, htail⟩
    by_cases hk : k' = k
    · have hms : mapSet ((k', v') :: rest) k v = (k, v) :: rest := by
        simp [mapSet, hk]
      rw [hms]
      refine List.pairwise_cons.2 ⟨?_, htail⟩
      intro e he
      exact hk ▸ hhead e he
    · have hms : mapSet ((k', v') :: rest) k v = (k', v') :: mapSet rest k v := by
        simp [mapSet, hk]
      rw [hms]
      refine List.pairwise_cons.2 ⟨?_, ih htail⟩
      intro e he
      rcases mem_mapSet rest k v e he with h' | h'
      · exact hhead e h'
      · subst h'
        exact hk

theorem nodupKeys_mapDelete {α : Type} (m : JsMap α) (k : String)
    (hnd : m.Pairwise fun a b => a.1 ≠ b.1) :
    (mapDelete m k).Pairwise fun a b => a.1 ≠ b.1 :=
  hnd.sublist (mapDelete_sublist m k)

theorem setAdd_ne_nil (s : List Conn) (ws : Conn) : setAdd s ws ≠ [] := by
  by_cases h : ws ∈ s
  · simp only [setAdd, if_pos h]
    intro hnil
    exact absurd (hnil ▸ h) (List.not_mem_nil ws)
  · simp [setAdd, h]

theorem mem_setAdd_self (s : List Conn) (ws : Conn) : ws ∈ setAdd s ws := by
  by_cases h : ws ∈ s
  · simp [setAdd, h]
  · simp [setAdd, h]

/-! ## Broadcast lemmas -/

theorem mem_broadcast_elim (rc : List Conn) (ws : Conn) (isOpen : Conn → Bool)
    (txt : String) (p : Conn × String)
    (hp : p ∈ rc.filterMap fun client =>
      if client ≠ ws ∧ isOpen client then some (client, txt) else none) :
    p.1 ∈ rc ∧ p.1 ≠ ws ∧ isOpen p.1 = true ∧ p.2 = txt := by
  rcases List.mem_filterMap.1 hp with ⟨a, ha, hfa⟩
  by_cases hcond : a ≠ ws ∧ isOpen a
  · rw [if_pos hcond] at hfa
    obtain rfl := Option.some.inj hfa
    exact ⟨ha, hcond.1, hcond.2, rfl⟩
  · rw [if_neg hcond] at hfa
    cases hfa

theorem mem_broadcast_intro (rc : List Conn) (ws : Conn) (isOpen : Conn → Bool)
    (txt : String) (client : Conn) (h : client ∈ rc) (hne : client ≠ ws)
    (hopen : isOpen client = true) :
    (client, txt) ∈ rc.filterMap fun cl =>
      if cl ≠ ws ∧ isOpen cl then some (cl, txt) else none := by
  refine List.mem_filterMap.2 ⟨client, h, ?_⟩
  rw [if_pos ⟨hne, hopen⟩]

/-! ## Claim theorems -/

/-- C1: for every message successfully parsed from a connection `ws`
registered under room code `c`, the broker delivers the payload
(`JSON.stringify` of the parsed envelope) to every other connection
currently registered under `c` whose channel is open, and never delivers
it back to `ws` itself. -/
theorem c1_broadcast_reaches_others_never_sender (st : Registry) (ws : Conn)
    (c : String) (isOpen : Conn → Bool) (m : String) (j : JsonVal)
    (rc : List Conn) (hparse : jsonParse m = some j)
    (hrc : mapGet st c = some rc) :
    ∃ ds, handleMessage st ws c isOpen m = .ok ds ∧
      (∀ client ∈ rc, client ≠ ws → isOpen client = true →
        (client, jsonStringify j) ∈ ds) ∧
      (∀ p ∈ ds, p.1 ≠ ws) := by
  refine ⟨rc.filterMap fun client =>
      if client ≠ ws ∧ isOpen client then some (client, jsonStringify j)
      else none, ?_, ?_, ?_⟩
  · simp [handleMessage, hparse, hrc]
  · intro client hmem hne hopen
    exact mem_broadcast_intro rc ws isOpen (jsonStringify j) client hmem hne hopen
  · intro p hp
    exact (mem_broadcast_elim rc ws isOpen (jsonStringify j) p hp).2.1

/-- Witness for C1: concrete room `"R"` with connections 0, 1, 2, where 2
is not open; sender 0's payload reaches exactly the open peers. -/
theorem c1_broadcast_reaches_others_never_sender_witness :
    ∃ ds, handleMessage [("R", [0, 1, 2])] 0 "R" (fun cl => cl != 2)
        " true" = .ok ds ∧
      (∀ client ∈ [0, 1, 2], client ≠ 0 → (client != 2) = true →
        (client, jsonStringify (.bool true)) ∈ ds) ∧
      (∀ p ∈ ds, p.1 ≠ 0) :=
  c1_broadcast_reaches_others_never_sender [("R", [0, 1, 2])] 0 "R"
    (fun cl => cl != 2) " true" (.bool true) [0, 1, 2] rfl rfl

/-- C3: the message handler wraps `JSON.parse` in no `try`/`catch`, so a
malformed relay payload makes the parse exception escape the handler —
the connection/dispatch loop is not protected, contradicting the spec's
drop-silently policy.  Evaluated at the failing input `"tru"`. -/
theorem c3_malformed_message_raises :
    handleMessage [("R", [0, 1])] 0 "R" (fun _ => true) "tru" =
      .error () := rfl

/-- C4 counterexample: a handshake whose `code` query parameter is present
but empty (`some ""`) is closed and never registered — the claim's "for
every connection with a code present, it is registered under that code and
accepted" fails at this input. -/
theorem c4_present_empty_code_not_registered :
    handleConnection [] 7 (some "") = ([], false) := rfl

/-- C4 (amended): a handshake lacking the room-code parameter, or carrying
it as the empty string, is closed immediately and never registered; every
handshake with a non-empty code is registered under that code and
accepted. -/
theorem c4_handshake_admission (st : Registry) (ws : Conn)
    (code : Option String) :
    ((code = none ∨ code = some "") → handleConnection st ws code = (st, false)) ∧
    (∀ c : String, code = some c → c ≠ "" →
      (handleConnection st ws code).2 = true ∧
      ∃ rc, mapGet (handleConnection st ws code).1 c = some rc ∧ ws ∈ rc) := by
  constructor
  · rintro (rfl | rfl) <;> rfl
  · rintro c rfl hc
    have hunfold : handleConnection st ws (some c) =
        (mapSet (if mapHas st c then st else mapSet st c []) c
          (setAdd ((mapGet (if mapHas st c then st else mapSet st c []) c).getD [])
            ws), true) := by
      simp [handleConnection, hc]
    rw [hunfold]
    exact ⟨rfl, _, mapGet_mapSet_self _ _ _, mem_setAdd_self _ _⟩

/-- Witness for C4 (amended): the missing-code handshake is refused, and a
handshake with code `"R"` is accepted and registered. -/
theorem c4_handshake_admission_witness :
    handleConnection [] 5 none = ([], false) ∧
    ((handleConnection [] 5 (some "R")).2 = true ∧
      ∃ rc, mapGet (handleConnection [] 5 (some "R")).1 "R" = some rc ∧
        5 ∈ rc) :=
  ⟨(c4_handshake_admission [] 5 none).1 (Or.inl rfl),
   (c4_handshake_admission [] 5 (some "R")).2 "R" rfl (by decide)⟩

/-- C10: a handshake whose `code` parameter equals the empty string is
treated exactly like a handshake with no `code` parameter (JS `!code` is
true for both `null` and `""`): closed immediately, never registered; and
every non-empty code is admitted. -/
theorem c10_empty_code_like_missing (st : Registry) (ws : Conn) :
    handleConnection st ws (some "") = handleConnection st ws none ∧
    handleConnection st ws (some "") = (st, false) ∧
    ∀ c : String, c ≠ "" → (handleConnection st ws (some c)).2 = true := by
  refine ⟨rfl, rfl, ?_⟩
  intro c hc
  simp [handleConnection, hc]

/-- Witness for C10 at an empty registry: the empty-string handshake is
closed without registering, and code `"Q"` is admitted. -/
theorem c10_empty_code_like_missing_witness :
    handleConnection [] 4 (some "") = ([], false) ∧
    (handleConnection [] 4 (some "Q")).2 = true :=
  ⟨(c10_empty_code_like_missing [] 4).2.1,
   (c10_empty_code_like_missing [] 4).2.2 "Q" (by decide)⟩

/-! ## Registry invariant lemmas -/

theorem mapGet_append_fresh_self {α : Type} (m : JsMap α) (k : String) (v : α)
    (h : mapGet m k = none) : mapGet (m ++ [(k, v)]) k = some v := by
  induction m with
  | nil => simp [mapGet]
  | cons f rest ih =>
    obtain ⟨k', v'⟩ := f
    by_cases hk : k' = k
    · simp [mapGet, hk] at h
    · simp only [mapGet, if_neg hk, List.cons_append] at h ⊢
      exact ih h

theorem regWF_handleConnection (st : Registry) (ws : Conn)
    (codeOpt : Option String) (hwf : RegWF st) :
    RegWF (handleConnection st ws codeOpt).1 := by
  match codeOpt with
  | none => exact hwf
  | some c =>
    by_cases hc : c = ""
    · subst hc
      exact hwf
    · cases hget : mapGet st c with
      | some rc =>
        have h1 : (handleConnection st ws (some c)).1 =
            mapSet st c (setAdd rc ws) := by
          simp [handleConnection, hc, mapHas, hget]
        rw [h1]
        intro e he
        rcases mem_mapSet st c (setAdd rc ws) e he with h' | h'
        · exact hwf e h'
        · rw [h']
          exact setAdd_ne_nil rc ws
      | none =>
        have h1 : (handleConnection st ws (some c)).1 =
            st ++ [(c, setAdd [] ws)] := by
          simp only [handleConnection, if_neg hc, mapHas, hget,
            Option.isSome_none]
          rw [if_neg (by simp), mapSet_of_get_none st c [] hget,
            mapSet_append_fresh st c [] _ hget]
          simp [mapGet_append_fresh_self st c ([] : List Conn) hget]
        rw [h1]
        intro e he
        rcases List.mem_append.1 he with h' | h'
        · exact hwf e h'
        · rw [List.mem_singleton.1 h']
          exact setAdd_ne_nil [] ws

theorem nodupKeys_handleConnection (st : Registry) (ws : Conn)
    (codeOpt : Option String) (hnd : NodupKeys st) :
    NodupKeys (handleConnection st ws codeOpt).1 := by
  match codeOpt with
  | none => exact hnd
  | some c =>
    by_cases hc : c = ""
    · subst hc
      exact hnd
    · cases hget : mapGet st c with
      | some rc =>
        have h1 : (handleConnection st ws (some c)).1 =
            mapSet st c (setAdd rc ws) := by
          simp [handleConnection, hc, mapHas, hget]
        rw [h1]
        exact nodupKeys_mapSet st c (setAdd rc ws) hnd
      | none =>
        have h1 : (handleConnection st ws (some c)).1 =
            st ++ [(c, setAdd [] ws)] := by
          simp only [handleConnection, if_neg hc, mapHas, hget,
            Option.isSome_none]
          rw [if_neg (by simp), mapSet_of_get_none st c [] hget,
            mapSet_append_fresh st c [] _ hget]
          simp [mapGet_append_fresh_self st c ([] : List Conn) hget]
        rw [h1]
        refine List.pairwise_append.2 ⟨hnd, List.pairwise_singleton _ _, ?_⟩
        intro a ha b hb
        rw [List.mem_singleton.1 hb]
        exact (mapGet_eq_none_iff st c).1 hget a ha

theorem regWF_handleClose (st : Registry) (ws : Conn) (c : String)
    (hwf : RegWF st) : RegWF (handleClose st ws c) := by
  cases hget : mapGet st c with
  | none =>
    simp only [handleClose, hget]
    exact hwf
  | some rc =>
    by_cases hdel : setDelete rc ws = []
    · simp only [handleClose, hget, hdel, if_pos]
      intro e he
      exact hwf e (mem_mapDelete st c e he)
    · simp only [handleClose, hget, if_neg hdel]
      intro e he
      rcases mem_mapSet st c (setDelete rc ws) e he with h' | h'
      · exact hwf e h'
      · rw [h']
        exact hdel

theorem nodupKeys_handleClose (st : Registry) (ws : Conn) (c : String)
    (hnd : NodupKeys st) : NodupKeys (handleClose st ws c) := by
  cases hget : mapGet st c with
  | none =>
    simp only [handleClose, hget]
    exact hnd
  | some rc =>
    by_cases hdel : setDelete rc ws = []
    · simp only [handleClose, hget, hdel, if_pos]
      exact nodupKeys_mapDelete st c hnd
    · simp only [handleClose, hget, if_neg hdel]
      exact nodupKeys_mapSet st c (setDelete rc ws) hnd

theorem handleClose_deletes_empty (st : Registry) (ws : Conn) (c : String)
    (rc : List Conn) (hnd : NodupKeys st) (hget : mapGet st c = some rc)
    (hdel : setDelete rc ws = []) :
    mapGet (handleClose st ws c) c = none := by
  simp only [handleClose, hget, hdel, if_pos]
  exact mapGet_mapDelete_self st c hnd

theorem handleConnection_get_other (st : Registry) (ws : Conn)
    (codeOpt : Option String) (c2 : String) (h : codeOpt ≠ some c2) :
    mapGet (handleConnection st ws codeOpt).1 c2 = mapGet st c2 := by
  match codeOpt with
  | none => rfl
  | some c =>
    have hcc : c2 ≠ c := fun e => h (by rw [e])
    by_cases hc : c = ""
    · subst hc
      rfl
    · have h1 : (handleConnection st ws (some c)).1 =
          mapSet (if mapHas st c then st else mapSet st c []) c
            (setAdd ((mapGet (if mapHas st c then st else mapSet st c [])
              c).getD []) ws) := by
        simp [handleConnection, hc]
      rw [h1, mapGet_mapSet_other _ c c2 _ hcc]
      by_cases hhas : mapHas st c
      · rw [if_pos hhas]
      · rw [if_neg hhas, mapGet_mapSet_other st c c2 [] hcc]

/-- C9: the Room Registry never maps a room code to an empty connection
set — the invariant (together with key uniqueness) is preserved by every
connection and close event; an entry is created only for the code whose
connection is added (all other codes' entries are untouched), and a close
that empties a code's set deletes the entry itself.  (The close handler
takes no store argument at all: it cannot touch the durable Snapshot
Store.) -/
theorem c9_registry_never_empty (st : Registry) (ws : Conn)
    (codeOpt : Option String) (c : String) (hwf : RegWF st)
    (hnd : NodupKeys st) :
    RegWF (handleConnection st ws codeOpt).1 ∧
    NodupKeys (handleConnection st ws codeOpt).1 ∧
    RegWF (handleClose st ws c) ∧
    NodupKeys (handleClose st ws c) ∧
    (∀ rc, mapGet st c = some rc → setDelete rc ws = [] →
      mapGet (handleClose st ws c) c = none) ∧
    (∀ c2, codeOpt ≠ some c2 →
      mapGet (handleConnection st ws codeOpt).1 c2 = mapGet st c2) :=
  ⟨regWF_handleConnection st ws codeOpt hwf,
   nodupKeys_handleConnection st ws codeOpt hnd,
   regWF_handleClose st ws c hwf,
   nodupKeys_handleClose st ws c hnd,
   fun rc hget hdel => handleClose_deletes_empty st ws c rc hnd hget hdel,
   fun c2 h => handleConnection_get_other st ws codeOpt c2 h⟩

/-- Witness for C9 at the registry `[("R", [0, 1]), ("S", [2])]`: both
invariants hold after a new connection joins `"T"`, and closing the last
connection of `"S"` removes the `"S"` entry. -/
theorem c9_registry_never_empty_witness :
    RegWF (handleConnection [("R", [0, 1]), ("S", [2])] 3 (some "T")).1 ∧
    mapGet (handleClose [("R", [0, 1]), ("S", [2])] 2 "S") "S" = none :=
  ⟨(c9_registry_never_empty [("R", [0, 1]), ("S", [2])] 3 (some "T") "S"
      (by unfold RegWF; decide) (by unfold NodupKeys; decide)).1,
   (c9_registry_never_empty [("R", [0, 1]), ("S", [2])] 2 (some "T") "S"
      (by unfold RegWF; decide) (by unfold NodupKeys; decide)).2.2.2.2.1 [2] rfl rfl⟩

/-- C2: the broadcast only iterates the sender's own room's connection
set, so in a registry whose rooms hold disjoint connection sets (as every
registry built from one `connection` event per socket does), a message
broadcast by a connection registered under `c1` is never delivered to any
connection registered under a different code `c2`. -/
theorem c2_no_cross_room_delivery (st : Registry) (ws : Conn)
    (c1 c2 : String) (isOpen : Conn → Bool) (m : String)
    (ds : List (Conn × String)) (rc2 : List Conn) (hsep : Separated st)
    (h : handleMessage st ws c1 isOpen m = .ok ds) (hne : c2 ≠ c1)
    (hrc2 : mapGet st c2 = some rc2) :
    (∀ p ∈ ds, ∃ rc1, mapGet st c1 = some rc1 ∧ p.1 ∈ rc1) ∧
    (∀ conn ∈ rc2, ∀ s, (conn, s) ∉ ds) := by
  cases hparse : jsonParse m with
  | none => simp [handleMessage, hparse] at h
  | some j =>
    cases hrc1 : mapGet st c1 with
    | none =>
      simp only [handleMessage, hparse, hrc1] at h
      obtain rfl := Except.ok.inj h
      exact ⟨fun p hp => absurd hp (List.not_mem_nil p),
        fun conn _ s hs => absurd hs (List.not_mem_nil (conn, s))⟩
    | some rc1 =>
      simp only [handleMessage, hparse, hrc1] at h
      obtain rfl := Except.ok.inj h
      constructor
      · intro p hp
        exact ⟨rc1, rfl,
          (mem_broadcast_elim rc1 ws isOpen (jsonStringify j) p hp).1⟩
      · intro conn hconn s hs
        have hmem1 :=
          (mem_broadcast_elim rc1 ws isOpen (jsonStringify j) (conn, s) hs).1
        exact hsep (c2, rc2) (mapGet_mem st c2 rc2 hrc2) (c1, rc1)
          (mapGet_mem st c1 rc1 hrc1) hne conn hconn hmem1

/-- Witness for C2: rooms `"R"` and `"S"` with disjoint members; a message
in `"R"` from connection 0 reaches no member of `"S"`. -/
theorem c2_no_cross_room_delivery_witness :
    (∀ p ∈ [(1, "true")],
      ∃ rc1, mapGet [("R", [0, 1]), ("S", [2, 3])] "R" = some rc1 ∧
        (p : Conn × String).1 ∈ rc1) ∧
    (∀ conn ∈ [2, 3], ∀ s, (conn, s) ∉ [(1, "true")]) :=
  c2_no_cross_room_delivery [("R", [0, 1]), ("S", [2, 3])] 0 "R" "S"
    (fun _ => true) " true" [(1, "true")] [2, 3]
    (by unfold Separated; decide) rfl (by decide) rfl

/-- C7 counterexample: the relay sends
`JSON.stringify(JSON.parse(message))`, not the original bytes: the payload
`" true"` (leading space) is delivered as `"true"`, so a recipient does
not receive "exactly the payload the sender sent". -/
theorem c7_reserialisation_changes_bytes :
    handleMessage [("R", [0, 1])] 0 "R" (fun _ => true) " true" =
      .ok [(1, "true")] ∧ " true" ≠ "true" := ⟨rfl, by decide⟩

/-- C7 (amended): every recipient of a successfully parsed message
receives `JSON.stringify` of the parsed envelope — the relay never
interprets or alters the parsed value, but the delivered text is the
canonical re-serialisation, which need not be byte-identical to the
sender's original text. -/
theorem c7_delivery_is_reserialisation (st : Registry) (ws : Conn)
    (c : String) (isOpen : Conn → Bool) (m : String) (j : JsonVal)
    (ds : List (Conn × String)) (hparse : jsonParse m = some j)
    (h : handleMessage st ws c isOpen m = .ok ds) :
    ∀ p ∈ ds, p.2 = jsonStringify j := by
  cases hrc : mapGet st c with
  | none =>
    simp only [handleMessage, hparse, hrc] at h
    obtain rfl := Except.ok.inj h
    intro p hp
    cases hp
  | some rc =>
    simp only [handleMessage, hparse, hrc] at h
    obtain rfl := Except.ok.inj h
    intro p hp
    exact (mem_broadcast_elim rc ws isOpen (jsonStringify j) p hp).2.2.2

/-- Witness for C7 (amended): in room `"R"`, the delivery of the payload
`" true"` carries exactly `jsonStringify (.bool true)`. -/
theorem c7_delivery_is_reserialisation_witness :
    ((1, "true") : Conn × String).2 = jsonStringify (.bool true) :=
  c7_delivery_is_reserialisation [("R", [0, 1])] 0 "R" (fun _ => true)
    " true" (.bool true) [(1, "true")] rfl rfl (1, "true")
    (List.mem_singleton.2 rfl)

/-- C5 counterexample: in the in-memory fallback mode, creating room
`"AB12"` twice succeeds both times and the second create silently
replaces the stored room — no `DuplicateCode` failure. -/
theorem c5_fallback_create_overwrites :
    (postRooms false initialStores "AB12" "SINGLE" (.num 1)).1.localRooms =
      [("AB12", ⟨"AB12", "SINGLE", .num 1⟩)] ∧
    (postRooms false (postRooms false initialStores "AB12" "SINGLE"
        (.num 1)).1 "AB12" "SINGLE" (.num 2)).2 = .success ∧
    mapGet (postRooms false (postRooms false initialStores "AB12" "SINGLE"
        (.num 1)).1 "AB12" "SINGLE" (.num 2)).1.localRooms "AB12" =
      some ⟨"AB12", "SINGLE", .num 2⟩ := ⟨rfl, rfl, rfl⟩

/-- C5 (amended): against the connected durable store, `create` with an
existing code fails (a 500 `Failed to create room`, via the schema's
unique-code index) and leaves the stores untouched; in the in-memory
fallback mode, `create` with an existing code instead reports success and
replaces the stored room. -/
theorem c5_duplicate_create (st : ServerStores) (code mode : String)
    (data : JsonVal) (hdup : mapHas st.mongo code = true) :
    postRooms true st code mode data =
      (st, .serverError "Failed to create room") ∧
    (postRooms false st code mode data).2 = .success ∧
    mapGet (postRooms false st code mode data).1.localRooms code =
      some ⟨code, mode, data⟩ := by
  refine ⟨?_, rfl, ?_⟩
  · simp [postRooms, mongoSave, hdup]
  · exact mapGet_mapSet_self st.localRooms code ⟨code, mode, data⟩

/-- Witness for C5 (amended) at a store already holding code `"A"`. -/
theorem c5_duplicate_create_witness :
    postRooms true ⟨[("A", ⟨"A", "m", .null⟩)], []⟩ "A" "m" (.num 2) =
      (⟨[("A", ⟨"A", "m", .null⟩)], []⟩, .serverError "Failed to create room") ∧
    (postRooms false ⟨[("A", ⟨"A", "m", .null⟩)], []⟩ "A" "m" (.num 2)).2 =
      .success ∧
    mapGet (postRooms false ⟨[("A", ⟨"A", "m", .null⟩)], []⟩ "A" "m"
        (.num 2)).1.localRooms "A" = some ⟨"A", "m", .num 2⟩ :=
  c5_duplicate_create ⟨[("A", ⟨"A", "m", .null⟩)], []⟩ "A" "m" (.num 2) rfl

/-- C6 counterexample: `update` on the never-created code `"ZZZZ"` reports
success in both the connected and the fallback mode (the route answers
`{success: true}` whether or not `findOneAndUpdate` matched anything),
while `read` correctly answers 404. -/
theorem c6_missing_update_reports_success :
    (putRooms false initialStores "ZZZZ" (.num 5)).2 = .success ∧
    (putRooms true initialStores "ZZZZ" (.num 5)).2 = .success ∧
    getRooms false initialStores "ZZZZ" = .notFound := ⟨rfl, rfl, rfl⟩

/-- C6 (amended): for every code absent from both stores, `read` fails
with NotFound (404) in both modes, while `update` modifies nothing but
still reports success in both modes — it never fails with NotFound. -/
theorem c6_missing_code_read_update (st : ServerStores) (code : String)
    (data : JsonVal) (hmongo : mapGet st.mongo code = none)
    (hfb : mapGet st.localRooms code = none) :
    getRooms true st code = .notFound ∧
    getRooms false st code = .notFound ∧
    putRooms true st code data = (st, .success) ∧
    putRooms false st code data = (st, .success) := by
  refine ⟨?_, ?_, ?_, ?_⟩ <;>
    simp [getRooms, putRooms, mongoFindOne, mongoFindOneAndUpdate, hmongo, hfb]

/-- Witness for C6 (amended) at empty stores and code `"ZZ"`. -/
theorem c6_missing_code_read_update_witness :
    getRooms true initialStores "ZZ" = .notFound ∧
    getRooms false initialStores "ZZ" = .notFound ∧
    putRooms true initialStores "ZZ" (.num 7) = (initialStores, .success) ∧
    putRooms false initialStores "ZZ" (.num 7) = (initialStores, .success) :=
  c6_missing_code_read_update initialStores "ZZ" (.num 7) rfl rfl

/-- C8: when the durable store is unreachable (no `MONGODB_URI`, or
`mongoose.connect` fails), startup completes in a logged, degraded mode
(the `catch`/`else` branches never rethrow) and the snapshot routes still
succeed against the in-memory fallback: create then read round-trips,
update then read returns the new data — while a fresh process (whose
`localRooms` starts as `new Map()`) does not see that data. -/
theorem c8_store_unreachable_fallback (uri : Option String) (ok : Bool)
    (h : uri = none ∨ ok = false) (code mode : String) (data d2 : JsonVal) :
    (startupConnect uri ok).1 = false ∧
    ((startupConnect uri ok).2 = [.noUriFallback] ∨
      (startupConnect uri ok).2 = [.connectError]) ∧
    (postRooms false initialStores code mode data).2 = .success ∧
    getRooms false (postRooms false initialStores code mode data).1 code =
      .roomJson ⟨code, mode, data⟩ ∧
    (putRooms false (postRooms false initialStores code mode data).1 code
      d2).2 = .success ∧
    getRooms false (putRooms false (postRooms false initialStores code mode
      data).1 code d2).1 code = .roomJson ⟨code, mode, d2⟩ ∧
    getRooms false initialStores code = .notFound := by
  have hconn : (startupConnect uri ok).1 = false ∧
      ((startupConnect uri ok).2 = [.noUriFallback] ∨
        (startupConnect uri ok).2 = [.connectError]) := by
    rcases h with rfl | rfl
    · exact ⟨rfl, Or.inl rfl⟩
    · cases uri with
      | none => exact ⟨rfl, Or.inl rfl⟩
      | some u => exact ⟨rfl, Or.inr rfl⟩
  refine ⟨hconn.1, hconn.2, rfl, ?_, ?_, ?_, rfl⟩
  · simp [getRooms, postRooms, initialStores, mapSet, mapGet]
  · simp [putRooms, postRooms, initialStores, mapSet, mapGet]
  · simp [getRooms, putRooms, postRooms, initialStores, mapSet, mapGet]

/-- Witness for C8: no connection string, room `"AB12CD"` mode `"SINGLE"`:
fallback mode is logged, create/read/update succeed in-process, and a
fresh process's store answers 404 for the code. -/
theorem c8_store_unreachable_fallback_witness :
    (startupConnect none true).1 = false ∧
    ((startupConnect none true).2 = [.noUriFallback] ∨
      (startupConnect none true).2 = [.connectError]) ∧
    (postRooms false initialStores "AB12CD" "SINGLE" .null).2 = .success ∧
    getRooms false (postRooms false initialStores "AB12CD" "SINGLE"
      .null).1 "AB12CD" = .roomJson ⟨"AB12CD", "SINGLE", .null⟩ ∧
    (putRooms false (postRooms false initialStores "AB12CD" "SINGLE"
      .null).1 "AB12CD" (.num 3)).2 = .success ∧
    getRooms false (putRooms false (postRooms false initialStores "AB12CD"
      "SINGLE" .null).1 "AB12CD" (.num 3)).1 "AB12CD" =
      .roomJson ⟨"AB12CD", "SINGLE", .num 3⟩ ∧
    getRooms false initialStores "AB12CD" = .notFound :=
  c8_store_unreachable_fallback none true (Or.inl rfl) "AB12CD" "SINGLE"
    .null (.num 3)
